import Mathlib

/-!
Verification of the Neusis Code VS Code extension (agent session engine).

This file shallowly embeds the parts of the source that the verified
properties talk about:

* the streaming transcript reconstructor of
  `packages/ui/src/components/views/ClaudeCodeView.tsx` (the `claude:event`
  branch of `handleMessage`, together with its helpers
  `ensureAssistantMessage`, `updateLastAssistantBlocks`,
  `getOrCreateLastTextBlock`);
* the file-change tracker of `src/change-tracker.ts`
  (`snapshotFile`, `onToolResult`, `rejectFile`, `computeDiff`,
  `mergeRanges`, `normalizePath`);
* the generated permission hook of `src/webview-provider.ts`
  (`generateHookScript`) and the provider's `cleanupApprovalSetup`;
* the approval HTTP server of `src/approval-server.ts`
  (`handleApproval` and the request handler installed by `start`).

JSON values (`Record<string, unknown>` in the source) are modelled by an
abstract type parameter `J`, and JavaScript's `JSON.parse` by an abstract
function `parse : String → Option J` (`none` models a thrown
`SyntaxError`).  None of the embedded code inspects the inside of a parsed
JSON value, so this abstraction is faithful.  JavaScript `Map`s are
modelled by association lists with JavaScript `Map.set` semantics
(overwrite in place, insert at the end).
-/

namespace Neusis

variable {J : Type}

/-! ## JavaScript `Map` as an association list -/

/-- JavaScript `Map.get`: the value stored at `k`, if any. -/
def jsGet {α : Type} (m : List (String × α)) (k : String) : Option α :=
  match m with
  | [] => none
  | (k', v) :: rest => if k' = k then some v else jsGet rest k

/-- JavaScript `Map.set`: overwrite in insertion place, else append. -/
def jsSet {α : Type} (m : List (String × α)) (k : String) (v : α) :
    List (String × α) :=
  match m with
  | [] => [(k, v)]
  | (k', v') :: rest =>
      if k' = k then (k, v) :: rest else (k', v') :: jsSet rest k v

/-- JavaScript `Map.delete`: remove the entry stored at `k`, if any. -/
def jsDelete {α : Type} (m : List (String × α)) (k : String) :
    List (String × α) :=
  match m with
  | [] => []
  | (k', v') :: rest =>
      if k' = k then rest else (k', v') :: jsDelete rest k

/-! ## Transcript data model (`ClaudeCodeView.tsx`)

`ClaudeCodeToolBlock` / `ClaudeCodeTextBlock` / `ClaudeCodeMessage` from
the source.  `result`/`error` are optional fields (`undefined` and `null`
both collapse to `none`; the source only distinguishes them through `??`,
which treats both as absent). -/

/-- A `tool_use` content block of the webview transcript. -/
structure ToolBlock (J : Type) where
  id : String
  name : String
  input : J
  isStreaming : Bool
  result : Option String
  error : Option String
deriving DecidableEq

/-- A transcript content block: `ClaudeCodeContentBlock` in the source. -/
inductive Block (J : Type)
  | text (text : String)
  | toolUse (tb : ToolBlock J)
deriving DecidableEq

/-- Message role. -/
inductive Role
  | user
  | assistant
deriving DecidableEq

/-- `ClaudeCodeMessage`: one transcript turn. -/
structure Message (J : Type) where
  role : Role
  content : List (Block J)
deriving DecidableEq

/-- The streaming state of the view: the `messages` React state plus the
two refs that carry streaming buffers (`streamTextBufferRef`,
`toolInputBuffersRef`).  `currentToolIndexRef` is written but never read
by the source, so it is omitted. -/
structure ViewState (J : Type) where
  messages : List (Message J)
  streamTextBuffer : String
  toolInputBuffers : List (String × String)
deriving DecidableEq

/-- `ensureAssistantMessage` from the source: append an empty assistant
message unless the last message already is an assistant message. -/
def ensureAssistantMessage {J : Type} (prev : List (Message J)) :
    List (Message J) :=
  match prev.getLast? with
  | some last => if last.role = .assistant then prev
                 else prev ++ [⟨.assistant, []⟩]
  | none => prev ++ [⟨.assistant, []⟩]

/-- `updateLastAssistantBlocks` from the source: ensure an assistant
message is last, then rebuild it with its content run through `updater`. -/
def updateLastAssistantBlocks {J : Type} (prev : List (Message J))
    (updater : List (Block J) → List (Block J)) : List (Message J) :=
  let withAssistant := ensureAssistantMessage prev
  match withAssistant.getLast? with
  | some last => withAssistant.dropLast ++ [⟨last.role, updater last.content⟩]
  | none => withAssistant

/-- `getOrCreateLastTextBlock` from the source. -/
def getOrCreateLastTextBlock {J : Type} (blocks : List (Block J)) :
    List (Block J) :=
  match blocks.getLast? with
  | some (.text _) => blocks
  | _ => blocks ++ [.text ""]

/-! ## Incoming `claude:event` payloads

The source receives untyped JSON events and probes fields; the embedding
keeps every probed optional field optional. -/

/-- The `content_block` field of a `content_block_start` stream event.
Anything that is not of type `tool_use` is ignored by the handler. -/
inductive StartInfo
  | toolUse (id : Option String) (name : Option String)
  | nonTool
deriving DecidableEq

/-- The `delta` field of a `content_block_delta` stream event.  `text` and
`partialJson` are `none` when the field is absent or not a string. -/
inductive DeltaInfo
  | textDelta (text : Option String)
  | inputJsonDelta (partialJson : Option String)
  | otherDelta
deriving DecidableEq

/-- A `stream_event`'s `event` payload.  `nowMs` on `contentBlockStart`
models the ambient `Date.now()` used for the fallback tool id.  The
`index` field only feeds the write-only `currentToolIndexRef` and is
omitted. -/
inductive StreamEvt
  | contentBlockStart (info : Option StartInfo) (nowMs : Nat)
  | contentBlockDelta (delta : Option DeltaInfo)
  | contentBlockStop
  | otherStreamEvt
deriving DecidableEq

/-- An entry of an assistant snapshot's `message.content` array. -/
inductive SnapEntry (J : Type)
  | text (text : Option String)
  | toolUse (id : Option String) (name : Option String) (input : Option J)
  | otherEntry
deriving DecidableEq

/-- The `content` field of a `tool_result` event: a string, an array of
`{type, text}` items, or anything else. -/
inductive ResultContent
  | str (s : String)
  | arr (items : List (String × Option String))
  | otherContent
deriving DecidableEq

/-- The `claude:event` payloads handled by the reducer.  `result` carries
`data.result` when it is a string; the `permission_denials` field of a
result event only feeds the UI banner state and does not touch the
transcript.  `textEvt` is the plain-text fallback for non-JSON CLI
output. -/
inductive ClaudeEvent (J : Type)
  | streamEvent (evt : Option StreamEvt)
  | assistant (content : Option (List (SnapEntry J)))
  | toolResult (toolUseId : Option String) (content : Option ResultContent)
      (isError : Option Bool)
  | result (resultText : Option String)
  | textEvt (content : Option String)
  | otherEvent
deriving DecidableEq

/-- The reversed `find` of the `input_json_delta` branch: the last
streaming `tool_use` block of a content array. -/
def findLastStreamingTool {J : Type} (blocks : List (Block J)) :
    Option (ToolBlock J) :=
  blocks.reverse.findSome? fun b =>
    match b with
    | .toolUse t => if t.isStreaming then some t else none
    | .text _ => none

/-- Replace the (guaranteed) trailing text block with `t`: the shared
tail of the `text_delta`, `result` and `text` branches. -/
def setLastText {J : Type} (blocks : List (Block J)) (t : String) :
    List (Block J) :=
  let updated := getOrCreateLastTextBlock blocks
  updated.dropLast ++ [.text t]

/-- Truthiness of `s.trim()` in the source: the trimmed string is
non-empty iff some character is not whitespace.  (`Char.isWhitespace`
covers the ASCII whitespace the CLI protocol produces.) -/
def trimNonblank (s : String) : Bool :=
  s.data.any fun c => !c.isWhitespace

/-- The `resultText` extraction of the `tool_result` branch: a string is
taken as-is, an array keeps items with `type === 'text'` and a string
`text` and joins them, anything else yields the empty string. -/
def extractResultText (content : Option ResultContent) : String :=
  match content with
  | some (.str s) => s
  | some (.arr items) =>
      String.join ((items.filterMap fun it =>
        if it.1 = "text" then it.2 else none))
  | _ => ""

/-- The `content_block_start` branch: a `tool_use` block is appended to
the last assistant message with empty input and `isStreaming = true`, and
its input buffer is initialised to `""`.  Non-tool starts do nothing. -/
def applyBlockStart (emptyObj : J) (s : ViewState J)
    (info : Option StartInfo) (nowMs : Nat) : ViewState J :=
  match info with
  | some (.toolUse id name) =>
      let toolId := id.getD ("tool-" ++ toString nowMs)
      let toolName := name.getD "unknown"
      { s with
        toolInputBuffers := jsSet s.toolInputBuffers toolId ""
        messages := updateLastAssistantBlocks s.messages fun blocks =>
          blocks ++ [.toolUse ⟨toolId, toolName, emptyObj, true, none, none⟩] }
  | _ => s

/-- The `text_delta` branch: the stream buffer grows by the fragment and
the trailing text block is set to the whole buffer. -/
def applyTextDelta (s : ViewState J) (t : String) : ViewState J :=
  let bufferedText := s.streamTextBuffer ++ t
  { s with
    streamTextBuffer := bufferedText
    messages := updateLastAssistantBlocks s.messages fun blocks =>
      setLastText blocks bufferedText }

/-- The `input_json_delta` branch: the fragment is appended to the buffer
of the last streaming tool block; if the accumulated buffer parses, every
block with that id gets the parsed input, otherwise the messages are left
as they were (`return prev` in the source). -/
def applyInputJsonDelta (parse : String → Option J) (s : ViewState J)
    (pj : String) : ViewState J :=
  let withAssistant := ensureAssistantMessage s.messages
  match withAssistant.getLast? with
  | none => s
  | some last =>
      match findLastStreamingTool last.content with
      | none => s
      | some toolBlock =>
          let buf := ((jsGet s.toolInputBuffers toolBlock.id).getD "") ++ pj
          let bufs := jsSet s.toolInputBuffers toolBlock.id buf
          match parse buf with
          | some parsed =>
              { s with
                toolInputBuffers := bufs
                messages := updateLastAssistantBlocks s.messages fun blocks =>
                  blocks.map fun b =>
                    match b with
                    | .toolUse t =>
                        if t.id = toolBlock.id then
                          .toolUse { t with input := parsed }
                        else b
                    | .text _ => b }
          | none => { s with toolInputBuffers := bufs }

/-- The `content_block_stop` branch: every still-streaming tool block is
finalised — its accumulated buffer is parsed one last time (keeping the
previous input on failure) and `isStreaming` becomes `false`. -/
def applyBlockStop (parse : String → Option J) (s : ViewState J) :
    ViewState J :=
  { s with
    messages := updateLastAssistantBlocks s.messages fun blocks =>
      blocks.map fun b =>
        match b with
        | .toolUse t =>
            if t.isStreaming then
              let buf := (jsGet s.toolInputBuffers t.id).getD ""
              .toolUse { t with
                isStreaming := false
                input := (parse buf).getD t.input }
            else b
        | .text _ => b }

/-- The block list built from a snapshot's content: text entries with a
string `text`, and `tool_use` entries with truthy (non-empty) `id` and
`name` (input defaulting to `{}`, `isStreaming = false`). -/
def snapNewBlocks (emptyObj : J) (entries : List (SnapEntry J)) :
    List (Block J) :=
  entries.filterMap fun e =>
    match e with
    | .text (some t) => some (.text t)
    | .toolUse (some id) (some name) input =>
        if id ≠ "" ∧ name ≠ "" then
          some (.toolUse ⟨id, name, input.getD emptyObj, false, none, none⟩)
        else none
    | _ => none

/-- The ids of the tool blocks of a content array, in order. -/
def blockToolIds (blocks : List (Block J)) : List String :=
  blocks.filterMap fun b =>
    match b with
    | .toolUse t => some t.id
    | .text _ => none

/-- The (id, block) pairs of the tool blocks of a content array. -/
def toolPairs (blocks : List (Block J)) : List (String × ToolBlock J) :=
  blocks.filterMap fun b =>
    match b with
    | .toolUse t => some (t.id, t)
    | .text _ => none

/-- The tool map of the last assistant message (`existingToolMap`). -/
def existingToolMap (blocks : List (Block J)) :
    List (String × ToolBlock J) :=
  blocks.foldl
    (fun m b =>
      match b with
      | .toolUse t => jsSet m t.id t
      | .text _ => m)
    []

/-- The merge of the `assistant` branch: snapshot blocks win, tools
present in both sets keep `result`/`error` already recorded against their
id (`existing.result ?? b.result`), and existing tools absent from the
snapshot (`orphanedTools`) are prepended. -/
def snapMerge (oldBlocks newBlocks : List (Block J)) : List (Block J) :=
  let toolMap := existingToolMap oldBlocks
  let newToolIds := blockToolIds newBlocks
  let mergedBlocks := newBlocks.map fun b =>
    match b with
    | .toolUse t =>
        match jsGet toolMap t.id with
        | some existing =>
            .toolUse { t with
              result := existing.result.or t.result
              error := existing.error.or t.error }
        | none => b
    | .text _ => b
  let orphanedTools :=
    ((toolMap.map Prod.snd).filter fun t =>
      ! newToolIds.contains t.id).map Block.toolUse
  orphanedTools ++ mergedBlocks

/-- The `assistant` branch: if the snapshot yields any blocks, the stream
text buffer is cleared and the last assistant message is replaced by the
merge of its blocks with the snapshot's. -/
def applyAssistantSnapshot (emptyObj : J) (s : ViewState J)
    (content : Option (List (SnapEntry J))) : ViewState J :=
  match content with
  | none => s
  | some entries =>
      let newBlocks := snapNewBlocks emptyObj entries
      if newBlocks.isEmpty then s
      else
        let withAssistant := ensureAssistantMessage s.messages
        match withAssistant.getLast? with
        | none => s
        | some last =>
            { s with
              streamTextBuffer := ""
              messages := withAssistant.dropLast ++
                [⟨.assistant, snapMerge last.content newBlocks⟩] }

/-- The `tool_result` branch: with a truthy `tool_use_id`, every block of
the last assistant message with that id gets `isStreaming := false` and
either `error` (when `is_error` is true; empty text becomes
`"Tool error"`) or `result` set to the extracted text. -/
def applyToolResult (s : ViewState J) (toolUseId : Option String)
    (content : Option ResultContent) (isError : Option Bool) : ViewState J :=
  match toolUseId with
  | some tid =>
      if tid = "" then s
      else
        let resultText := extractResultText content
        { s with
          messages := updateLastAssistantBlocks s.messages fun blocks =>
            blocks.map fun b =>
              match b with
              | .toolUse t =>
                  if t.id = tid then
                    if isError = some true then
                      .toolUse { t with
                        isStreaming := false
                        error := some (if resultText = "" then "Tool error"
                                       else resultText) }
                    else
                      .toolUse { t with
                        isStreaming := false
                        result := some resultText }
                  else b
              | .text _ => b }
  | none => s

/-- The `result` branch: a string result with non-blank trim replaces the
stream buffer and the trailing text block wholesale. -/
def applyResult (s : ViewState J) (resultText : Option String) :
    ViewState J :=
  match resultText with
  | some t =>
      if trimNonblank t then
        { s with
          streamTextBuffer := t
          messages := updateLastAssistantBlocks s.messages fun blocks =>
            setLastText blocks t }
      else s
  | none => s

/-- The `text` fallback branch: content plus a newline is appended to the
stream buffer and the trailing text block is set to the whole buffer. -/
def applyTextEvt (s : ViewState J) (content : Option String) : ViewState J :=
  match content with
  | some c =>
      let bufferedText := s.streamTextBuffer ++ c ++ "\n"
      { s with
        streamTextBuffer := bufferedText
        messages := updateLastAssistantBlocks s.messages fun blocks =>
          setLastText blocks bufferedText }
  | none => s

/-- The `claude:event` branch of `handleMessage` in `ClaudeCodeView.tsx`,
one event at a time. -/
def handleClaudeEvent (emptyObj : J) (parse : String → Option J)
    (s : ViewState J) (e : ClaudeEvent J) : ViewState J :=
  match e with
  | .streamEvent none => s
  | .streamEvent (some evt) =>
      match evt with
      | .contentBlockStart info nowMs => applyBlockStart emptyObj s info nowMs
      | .contentBlockDelta (some (.textDelta (some t))) => applyTextDelta s t
      | .contentBlockDelta (some (.inputJsonDelta (some pj))) =>
          applyInputJsonDelta parse s pj
      | .contentBlockDelta _ => s
      | .contentBlockStop => applyBlockStop parse s
      | .otherStreamEvt => s
  | .assistant content => applyAssistantSnapshot emptyObj s content
  | .toolResult toolUseId content isError =>
      applyToolResult s toolUseId content isError
  | .result resultText => applyResult s resultText
  | .textEvt content => applyTextEvt s content
  | .otherEvent => s

/-- Fold a list of events through the reducer. -/
def runEvents (emptyObj : J) (parse : String → Option J)
    (s : ViewState J) (es : List (ClaudeEvent J)) : ViewState J :=
  es.foldl (handleClaudeEvent emptyObj parse) s

/-! ## Structural lemmas about the reconstructor -/

/-- Content of the last message of a transcript (empty when none). -/
def lastContent (ms : List (Message J)) : List (Block J) :=
  match ms.getLast? with
  | some m => m.content
  | none => []

/-- Content of the last message after ensuring an assistant turn. -/
def ensuredContent (ms : List (Message J)) : List (Block J) :=
  lastContent (ensureAssistantMessage ms)

/-- The last block of the last message of the view state. -/
def lastBlock (s : ViewState J) : Option (Block J) :=
  match s.messages.getLast? with
  | some m => m.content.getLast?
  | none => none

/-! ## Event abbreviations and string helpers -/

/-- A `content_block_delta` stream event carrying a text fragment. -/
def textDeltaEvt (t : String) : ClaudeEvent J :=
  .streamEvent (some (.contentBlockDelta (some (.textDelta (some t)))))

/-- A `content_block_delta` stream event carrying a JSON fragment. -/
def inputDeltaEvt (pj : String) : ClaudeEvent J :=
  .streamEvent (some (.contentBlockDelta (some (.inputJsonDelta (some pj)))))

/-- A `content_block_start` stream event opening a `tool_use` block. -/
def toolStartEvt (id name : Option String) (nowMs : Nat) : ClaudeEvent J :=
  .streamEvent (some (.contentBlockStart (some (.toolUse id name)) nowMs))

/-- A `content_block_stop` stream event. -/
def blockStopEvt : ClaudeEvent J :=
  .streamEvent (some .contentBlockStop)

/-! ## Claim C4: finalised tool input is a parsed value -/

/-- The accumulated buffer and the last successfully parsed intermediate
value (starting from `cur`) after feeding each fragment: the incremental
`JSON.parse`-on-every-delta policy of the source, used to state what the
reducer computes. -/
def lastGoodParse (parse : String → Option J) :
    String → J → List String → String × J
  | acc, cur, [] => (acc, cur)
  | acc, cur, pj :: rest =>
      lastGoodParse parse (acc ++ pj) ((parse (acc ++ pj)).getD cur) rest

/-! ## File-change tracker (`src/change-tracker.ts`)

File contents are modelled as character lists; a `Disk` maps (absolute)
paths to the contents of existing files (`none` models a failing
`fs.readFileSync`).  `resolveFilePath` is the identity here: the claims
concern absolute paths, for which the source returns its argument
unchanged.  Editor decoration, code-lens and reveal calls are UI effects
outside the tracked state. -/

/-- Disk contents by path. -/
def Disk : Type := String → Option (List Char)

/-- Overwrite one file on disk. -/
def writeDisk (disk : Disk) (p : String) (content : List Char) : Disk :=
  fun q => if q = p then some content else disk q

/-- JavaScript `content.split('\n')` on a character list. -/
def splitNL : List Char → List (List Char)
  | [] => [[]]
  | c :: cs =>
      if c = '\n' then [] :: splitNL cs
      else
        match splitNL cs with
        | [] => [[c]]
        | l :: ls => (c :: l) :: ls

/-- JavaScript `lines.join('\n')` on character lists. -/
def joinNL : List (List Char) → List Char
  | [] => []
  | [l] => l
  | l :: ls => l ++ '\n' :: joinNL ls

/-- A `vscode.Range`. -/
structure VRange where
  startLine : Nat
  startCol : Nat
  endLine : Nat
  endCol : Nat
deriving DecidableEq

/-- The bounded equal-run scan of `computeDiff`'s `while` loops. -/
def boundedRunLen {α : Type} [DecidableEq α] :
    Nat → List α → List α → Nat
  | 0, _, _ => 0
  | _ + 1, [], _ => 0
  | _ + 1, _, [] => 0
  | n + 1, a :: as, b :: bs =>
      if a = b then boundedRunLen n as bs + 1 else 0

/-- `ChangeTracker.computeDiff`: prefix/suffix common-run trim; the middle
overlap is classified modified, extra trailing after-lines are added; an
empty before-state classifies the whole after content as added.  Returns
`(added, modified)`. -/
def computeDiff (beforeLines afterLines : List (List Char)) :
    List VRange × List VRange :=
  if beforeLines = [] then
    if afterLines ≠ [] then
      ([⟨0, 0, afterLines.length - 1,
          ((afterLines.getLast?).getD []).length⟩], [])
    else ([], [])
  else
    let minLen := min beforeLines.length afterLines.length
    let prefixL := boundedRunLen minLen beforeLines afterLines
    let suffixL := boundedRunLen (minLen - prefixL)
      beforeLines.reverse afterLines.reverse
    let afterChangeStart := prefixL
    let afterChangeEnd := afterLines.length - suffixL
    let beforeChangeLen := (beforeLines.length - suffixL) - prefixL
    let afterChangeLen := afterChangeEnd - afterChangeStart
    if afterChangeLen = 0 ∧ beforeChangeLen = 0 then ([], [])
    else
      let overlapLen := min beforeChangeLen afterChangeLen
      let modified := (List.range' afterChangeStart overlapLen).map fun line =>
        ⟨line, 0, line, (afterLines.getD line []).length⟩
      let added := (List.range' (afterChangeStart + overlapLen)
          (afterChangeLen - overlapLen)).map fun line =>
        ⟨line, 0, line, (afterLines.getD line []).length⟩
      (added, modified)

/-- `ChangeTracker.mergeRanges`: append each new range unless a range
with the same start/end line is already present. -/
def mergeRanges (existing newRanges : List VRange) : List VRange :=
  newRanges.foldl
    (fun merged r =>
      if merged.any fun e =>
          e.startLine == r.startLine && e.endLine == r.endLine
      then merged
      else merged ++ [r])
    existing

/-- `ChangeTracker.normalizePath`: backslashes to slashes, lower-cased. -/
def normalizePath (p : String) : String :=
  String.mk (p.data.map fun c => if c = '\\' then '/' else c.toLower)

/-- A pending pre-edit snapshot, keyed by tool-use id. -/
structure PendingEdit where
  filePath : String
  beforeLines : List (List Char)
deriving DecidableEq

/-- A tracked file: decoration ranges plus the earliest before-content. -/
structure TrackedFile where
  added : List VRange
  modified : List VRange
  beforeContent : List Char
deriving DecidableEq

/-- The tracker's state: `pendingEdits` and `trackedFiles` maps. -/
structure TrackerState where
  pendingEdits : List (String × PendingEdit)
  trackedFiles : List (String × TrackedFile)
deriving DecidableEq

/-- `ChangeTracker.snapshotFile`: record the file's current content (a
missing file snapshots as empty) under the tool-use id. -/
def snapshotFile (st : TrackerState) (disk : Disk)
    (toolUseId filePath : String) : TrackerState :=
  let beforeLines :=
    match disk filePath with
    | some content => splitNL content
    | none => []
  { st with
    pendingEdits := jsSet st.pendingEdits toolUseId ⟨filePath, beforeLines⟩ }

/-- `ChangeTracker.onToolResult`: consume the pending snapshot, read the
post-tool content, diff, merge decoration ranges into any existing entry,
and keep the earliest `beforeContent`. -/
def onToolResult (st : TrackerState) (disk : Disk) (toolUseId : String) :
    TrackerState :=
  match jsGet st.pendingEdits toolUseId with
  | none => st
  | some pending =>
      let pendingEdits := jsDelete st.pendingEdits toolUseId
      match disk pending.filePath with
      | none => { st with pendingEdits := pendingEdits }
      | some content =>
          let afterLines := splitNL content
          let dm := computeDiff pending.beforeLines afterLines
          match jsGet st.trackedFiles pending.filePath with
          | some existing =>
              ⟨pendingEdits,
               jsSet st.trackedFiles pending.filePath
                 ⟨mergeRanges existing.added dm.1,
                  mergeRanges existing.modified dm.2,
                  existing.beforeContent⟩⟩
          | none =>
              ⟨pendingEdits,
               jsSet st.trackedFiles pending.filePath
                 ⟨dm.1, dm.2, joinNL pending.beforeLines⟩⟩

/-- `ChangeTracker.findTrackedKey`: first tracked key with the given
normalized path. -/
def findTrackedKey (st : TrackerState) (normalizedPath : String) :
    Option String :=
  st.trackedFiles.findSome? fun e =>
    if normalizePath e.1 = normalizedPath then some e.1 else none

/-- `ChangeTracker.rejectFile`: write `beforeContent` back to disk and
drop the tracking entry; a failing write (`writeFails`) surfaces an error
and leaves both state and disk untouched. -/
def rejectFile (st : TrackerState) (disk : Disk) (filePath : String)
    (writeFails : Bool) : TrackerState × Disk :=
  match findTrackedKey st (normalizePath filePath) with
  | none => (st, disk)
  | some key =>
      match jsGet st.trackedFiles key with
      | none => (st, disk)
      | some tracked =>
          if writeFails then (st, disk)
          else
            ({ st with trackedFiles := jsDelete st.trackedFiles key },
             writeDisk disk key tracked.beforeContent)

/-- One agent edit cycle per list entry: snapshot `p`, the tool writes
the new content, the tool result arrives. -/
def runCycles (st : TrackerState) (disk : Disk) (p : String) :
    List (String × List Char) → TrackerState × Disk
  | [] => (st, disk)
  | (tid, c) :: rest =>
      let st1 := snapshotFile st disk tid p
      let disk1 := writeDisk disk p c
      let st2 := onToolResult st1 disk1 tid
      runCycles st2 disk1 p rest

/-! ## Tool-permission hook (`generateHookScript`)

The hook is a Node script generated as a string by
`webview-provider.ts`; its decision logic is embedded as a function of
the parsed stdin payload and the outcome of its single gateway round
trip. -/

/-- The hook's parsed stdin payload: `tool_name` is `none` when absent
(`tool_input` is only echoed into the POST body and does not influence
the decision). -/
structure HookInput where
  toolNameField : Option String
deriving DecidableEq

/-- The decision object the hook writes (`hookSpecificOutput`). -/
structure HookDecision where
  hookEventName : String
  permissionDecision : String
  permissionDecisionReason : String
deriving DecidableEq

/-- Observable result of one hook run: the exit code, the decision
written to stdout (if any), and whether the gateway was contacted. -/
structure HookOutcome where
  exitCode : Nat
  output : Option HookDecision
  contactedGateway : Bool
deriving DecidableEq

/-- Outcome of the hook's HTTP round trip: a 200 response whose body
parses to an object with a truthy or falsy `approved` field (`none`
models `JSON.parse(rb)` throwing), a network error, or the 120000 ms
timeout firing. -/
inductive GatewayOutcome
  | response (approved : Option Bool)
  | networkError
  | timeout
deriving DecidableEq

/-- The `safeTools` allow-list of the generated hook script. -/
def safeTools : List String :=
  ["Read", "Glob", "Grep", "LS", "Task", "TodoRead", "TodoWrite"]

/-- The generated hook's decision logic.  Unparseable stdin exits 0
with no output; a safe tool exits 0 immediately without contacting the
gateway; otherwise the gateway is consulted — a parsed 200 response
yields the allow/deny decision object and exit 0, while an unparseable
response body, a request error, or the timeout (`req.destroy()`) all
exit 2 with no decision written. -/
def runHook (stdin : Option HookInput) (gw : GatewayOutcome) :
    HookOutcome :=
  match stdin with
  | none => ⟨0, none, false⟩
  | some data =>
      let toolName := data.toolNameField.getD ""
      if safeTools.contains toolName then ⟨0, none, false⟩
      else
        match gw with
        | .response (some approved) =>
            ⟨0, some ⟨"PreToolUse",
              if approved then "allow" else "deny",
              if approved then "" else "User denied this tool use"⟩, true⟩
        | .response none => ⟨2, none, true⟩
        | .networkError => ⟨2, none, true⟩
        | .timeout => ⟨2, none, true⟩

/-! ## Pending approvals (`NeusisChatViewProvider`) -/

/-- The provider's approval bookkeeping: `pendingApprovals` maps request
ids to resolver handles (abstract tokens standing for the stored
`resolve` callbacks) plus the monotonic `approvalCounter`. -/
structure ApprovalState where
  pendingApprovals : List (String × Nat)
  approvalCounter : Nat
deriving DecidableEq

/-- `requestApprovalFromWebview`: bump the counter and store the
resolver under `approval-<n>` (posting the approvalRequest message is UI
traffic outside this state). -/
def requestApprovalFromWebview (st : ApprovalState) (resolver : Nat) :
    ApprovalState :=
  let counter := st.approvalCounter + 1
  ⟨jsSet st.pendingApprovals ("approval-" ++ toString counter) resolver,
   counter⟩

/-- `handleApprovalResponse`: when the id is pending, invoke its
resolver with the decision and delete the entry.  The first component
lists the resolver invocations (token, approved). -/
def handleApprovalResponse (st : ApprovalState) (requestId : String)
    (approved : Bool) : List (Nat × Bool) × ApprovalState :=
  match jsGet st.pendingApprovals requestId with
  | some resolver =>
      ([(resolver, approved)],
       ⟨jsDelete st.pendingApprovals requestId, st.approvalCounter⟩)
  | none => ([], st)

/-- The approval part of `cleanupApprovalSetup`: invoke every pending
resolver with `false`, then clear the map.  (Stopping the HTTP server
and removing the hook directory are external effects.) -/
def cleanupApprovalSetup (st : ApprovalState) :
    List (Nat × Bool) × ApprovalState :=
  (st.pendingApprovals.map fun e => (e.2, false),
   ⟨[], st.approvalCounter⟩)

/-! ## Approval server (`src/approval-server.ts`) -/

/-- `ToolApprovalRequest` from the source. -/
structure ToolApprovalRequest where
  toolName : String
  toolInput : String
deriving DecidableEq

/-- Outcome of the injected host decision callback (`onApproval`): a
promise resolving to a boolean, or a rejecting promise. -/
inductive CallbackOutcome
  | resolved (approved : Bool)
  | rejected
deriving DecidableEq

/-- `handleApproval` combined with the request handler installed by
`ApprovalServer.start`: a body `JSON.parse` failure resolves `false`
without consulting the host (`parseReq` abstracts `JSON.parse` cast to
`ToolApprovalRequest`; `detail` abstracts `formatDetail`); otherwise the
injected callback decides, and a rejected callback promise is answered
by the handler's `.catch` with `{approved: false}`.  Returns the
`(status, approved-field)` response and whether the callback ran. -/
def approvalResponse (parseReq : String → Option ToolApprovalRequest)
    (detail : ToolApprovalRequest → String)
    (cb : ToolApprovalRequest → String → CallbackOutcome)
    (body : String) : (Nat × Bool) × Bool :=
  match parseReq body with
  | none => ((200, false), false)
  | some request =>
      match cb request (detail request) with
      | .resolved approved => ((200, approved), true)
      | .rejected => ((200, false), true)

/-! ## Theorems -/

theorem jsGet_jsSet_self {α : Type} (m : List (String × α)) (k : String)
    (v : α) : jsGet (jsSet m k v) k = some v := by
  induction m with
  | nil => simp [jsSet, jsGet]
  | cons hd tl ih =>
      obtain ⟨k', v'⟩ := hd
      by_cases h : k' = k
      · simp [jsSet, jsGet, h]
      · simp [jsSet, jsGet, h, ih]

theorem jsSet_append_of_not_mem {α : Type} (m : List (String × α))
    (k : String) (v : α) (h : ∀ e ∈ m, e.1 ≠ k) :
    jsSet m k v = m ++ [(k, v)] := by
  induction m with
  | nil => simp [jsSet]
  | cons hd tl ih =>
      obtain ⟨k', v'⟩ := hd
      have hk : k' ≠ k := h (k', v') (by simp)
      simp only [jsSet, hk, if_false, List.cons_append, List.cons.injEq,
        true_and]
      exact ih fun e he => h e (by simp [he])

theorem ensureAssistantMessage_getLast (prev : List (Message J)) :
    ∃ c, (ensureAssistantMessage prev).getLast? =
      some ⟨Role.assistant, c⟩ := by
  unfold ensureAssistantMessage
  cases h : prev.getLast? with
  | none => exact ⟨[], by simp⟩
  | some last =>
      by_cases hr : last.role = Role.assistant
      · refine ⟨last.content, ?_⟩
        obtain ⟨role, content⟩ := last
        simp only at hr
        subst hr
        simp [h]
      · exact ⟨[], by simp [hr]⟩

theorem getLast?_ensure (prev : List (Message J)) :
    (ensureAssistantMessage prev).getLast? =
      some ⟨Role.assistant, ensuredContent prev⟩ := by
  obtain ⟨c, hc⟩ := ensureAssistantMessage_getLast prev
  unfold ensuredContent lastContent
  rw [hc]

theorem ensure_of_last_assistant (prev : List (Message J))
    (c : List (Block J)) (h : prev.getLast? = some ⟨Role.assistant, c⟩) :
    ensureAssistantMessage prev = prev := by
  unfold ensureAssistantMessage
  rw [h]
  simp

theorem ensuredContent_of_last (ms : List (Message J)) (c : List (Block J))
    (h : ms.getLast? = some ⟨Role.assistant, c⟩) : ensuredContent ms = c := by
  unfold ensuredContent lastContent
  rw [ensure_of_last_assistant ms c h, h]

theorem updateLast_eq (prev : List (Message J))
    (f : List (Block J) → List (Block J)) :
    updateLastAssistantBlocks prev f =
      (ensureAssistantMessage prev).dropLast ++
        [⟨Role.assistant, f (ensuredContent prev)⟩] := by
  simp only [updateLastAssistantBlocks, getLast?_ensure]

theorem getLast?_updateLast (prev : List (Message J))
    (f : List (Block J) → List (Block J)) :
    (updateLastAssistantBlocks prev f).getLast? =
      some ⟨Role.assistant, f (ensuredContent prev)⟩ := by
  rw [updateLast_eq]
  exact List.getLast?_concat _

theorem ensure_updateLast (prev : List (Message J))
    (f : List (Block J) → List (Block J)) :
    ensureAssistantMessage (updateLastAssistantBlocks prev f) =
      updateLastAssistantBlocks prev f := by
  exact ensure_of_last_assistant _ _ (getLast?_updateLast prev f)

theorem ensuredContent_updateLast (prev : List (Message J))
    (f : List (Block J) → List (Block J)) :
    ensuredContent (updateLastAssistantBlocks prev f) =
      f (ensuredContent prev) := by
  exact ensuredContent_of_last _ _ (getLast?_updateLast prev f)

theorem updateLast_of_fix (prev : List (Message J))
    (f : List (Block J) → List (Block J))
    (h : f (ensuredContent prev) = ensuredContent prev) :
    updateLastAssistantBlocks prev f = ensureAssistantMessage prev := by
  rw [updateLast_eq, h]
  exact List.dropLast_append_getLast? _ (getLast?_ensure prev)

theorem findLastStreamingTool_concat (blocks : List (Block J))
    (t : ToolBlock J) (h : t.isStreaming = true) :
    findLastStreamingTool (blocks ++ [Block.toolUse t]) = some t := by
  unfold findLastStreamingTool
  rw [List.reverse_append]
  simp [h]

theorem setLastText_concat_text (blocks : List (Block J)) (t u : String) :
    setLastText (blocks ++ [Block.text t]) u = blocks ++ [Block.text u] := by
  unfold setLastText getOrCreateLastTextBlock
  rw [List.getLast?_concat]
  simp [List.dropLast_concat]

theorem setLastText_shape (blocks : List (Block J)) (u : String) :
    ∃ X, setLastText blocks u = X ++ [Block.text u] :=
  ⟨(getOrCreateLastTextBlock blocks).dropLast, rfl⟩

theorem string_foldl_append (l : List String) (a b : String) :
    l.foldl (· ++ ·) (a ++ b) = a ++ l.foldl (· ++ ·) b := by
  induction l generalizing b with
  | nil => simp
  | cons hd tl ih =>
      simp only [List.foldl_cons]
      rw [String.append_assoc, ih]

theorem string_join_cons (s : String) (l : List String) :
    String.join (s :: l) = s ++ String.join l := by
  show (s :: l).foldl (· ++ ·) "" = s ++ l.foldl (· ++ ·) ""
  rw [List.foldl_cons]
  have h : ("" ++ s : String) = s ++ "" := by simp
  rw [h, string_foldl_append]

/-! ## Claim C7: streamed text deltas concatenate -/

theorem textDelta_buffer (s : ViewState J) (t : String) :
    (applyTextDelta s t).streamTextBuffer = s.streamTextBuffer ++ t := rfl

theorem textDelta_last (s : ViewState J) (t : String) :
    ∃ X, (applyTextDelta s t).messages.getLast? =
      some ⟨Role.assistant, X ++ [Block.text (s.streamTextBuffer ++ t)]⟩ := by
  obtain ⟨X, hX⟩ := setLastText_shape (J := J)
    (ensuredContent s.messages) (s.streamTextBuffer ++ t)
  refine ⟨X, ?_⟩
  show (updateLastAssistantBlocks s.messages fun blocks =>
      setLastText blocks (s.streamTextBuffer ++ t)).getLast? = _
  rw [getLast?_updateLast, hX]

theorem textDeltas_run (emptyObj : J) (parse : String → Option J)
    (ts : List String) (s : ViewState J) :
    (runEvents emptyObj parse s (ts.map textDeltaEvt)).streamTextBuffer =
      ts.foldl (· ++ ·) s.streamTextBuffer ∧
    (ts ≠ [] → ∃ X,
      (runEvents emptyObj parse s (ts.map textDeltaEvt)).messages.getLast? =
        some ⟨Role.assistant,
          X ++ [Block.text (ts.foldl (· ++ ·) s.streamTextBuffer)]⟩) := by
  induction ts generalizing s with
  | nil => exact ⟨rfl, fun h => absurd rfl h⟩
  | cons t rest ih =>
      have hstep : runEvents emptyObj parse s ((t :: rest).map textDeltaEvt) =
          runEvents emptyObj parse (applyTextDelta s t)
            (rest.map textDeltaEvt) := rfl
      obtain ⟨ihbuf, ihlast⟩ := ih (applyTextDelta s t)
      rw [hstep]
      refine ⟨by rw [ihbuf, textDelta_buffer, List.foldl_cons], fun _ => ?_⟩
      cases rest with
      | nil =>
          obtain ⟨X, hX⟩ := textDelta_last s t
          exact ⟨X, hX⟩
      | cons r rs =>
          obtain ⟨X, hX⟩ := ihlast (by simp)
          exact ⟨X, by rw [hX]; simp only [textDelta_buffer, List.foldl_cons]⟩

/-- Claim C7: for every sequence of `content_block_delta` events carrying
`text_delta` fragments within one assistant turn (the source accumulates
all text deltas of the turn in one buffer, regardless of block index),
the resulting text block's text is the ordered concatenation of the
fragments. -/
theorem claim7_text_deltas_concat (J : Type) (emptyObj : J)
    (parse : String → Option J) (s : ViewState J) (ts : List String)
    (hbuf : s.streamTextBuffer = "") (hne : ts ≠ []) :
    lastBlock (runEvents emptyObj parse s (ts.map textDeltaEvt)) =
      some (Block.text (String.join ts)) := by
  obtain ⟨-, hlast⟩ := textDeltas_run emptyObj parse ts s
  obtain ⟨X, hX⟩ := hlast hne
  rw [hbuf] at hX
  unfold lastBlock
  rw [hX]
  simp [String.join]

/-- Witness for C7 at a concrete input. -/
theorem claim7_witness :
    lastBlock (runEvents (0 : Nat) (fun _ => none) ⟨[], "", []⟩
      (["He", "llo ", "world"].map textDeltaEvt)) =
      some (Block.text (String.join ["He", "llo ", "world"])) :=
  claim7_text_deltas_concat Nat 0 (fun _ => none) ⟨[], "", []⟩
    ["He", "llo ", "world"] rfl (by decide)

theorem lastGoodParse_fst (parse : String → Option J) (pjs : List String)
    (acc : String) (cur : J) :
    (lastGoodParse parse acc cur pjs).1 = acc ++ String.join pjs := by
  induction pjs generalizing acc cur with
  | nil => simp [lastGoodParse, String.join]
  | cons pj rest ih =>
      rw [lastGoodParse, ih, string_join_cons, String.append_assoc]

theorem toolStart_last (emptyObj : J) (parse : String → Option J)
    (s : ViewState J) (tid tname : String) (now : Nat) :
    (handleClaudeEvent emptyObj parse s
        (toolStartEvt (some tid) (some tname) now)).messages.getLast? =
      some ⟨Role.assistant, ensuredContent s.messages ++
        [Block.toolUse ⟨tid, tname, emptyObj, true, none, none⟩]⟩ ∧
    jsGet (handleClaudeEvent emptyObj parse s
        (toolStartEvt (some tid) (some tname) now)).toolInputBuffers tid =
      some "" := by
  constructor
  · exact getLast?_updateLast s.messages fun blocks =>
      blocks ++ [Block.toolUse ⟨tid, tname, emptyObj, true, none, none⟩]
  · exact jsGet_jsSet_self s.toolInputBuffers tid ""

theorem inputDeltas_run (emptyObj : J) (parse : String → Option J)
    (pjs : List String) (s : ViewState J) (X : List (Block J))
    (tid tname : String) (cur : J) (acc : String)
    (hlast : s.messages.getLast? = some ⟨Role.assistant,
      X ++ [Block.toolUse ⟨tid, tname, cur, true, none, none⟩]⟩)
    (hbuf : jsGet s.toolInputBuffers tid = some acc) :
    ∃ Y,
      (runEvents emptyObj parse s (pjs.map inputDeltaEvt)).messages.getLast? =
        some ⟨Role.assistant, Y ++ [Block.toolUse
          ⟨tid, tname, (lastGoodParse parse acc cur pjs).2, true, none, none⟩]⟩ ∧
      jsGet (runEvents emptyObj parse s
          (pjs.map inputDeltaEvt)).toolInputBuffers tid =
        some (lastGoodParse parse acc cur pjs).1 := by
  induction pjs generalizing s X cur acc with
  | nil => exact ⟨X, hlast, by simpa [lastGoodParse] using hbuf⟩
  | cons pj rest ih =>
      have hrun : runEvents emptyObj parse s ((pj :: rest).map inputDeltaEvt) =
          runEvents emptyObj parse (applyInputJsonDelta parse s pj)
            (rest.map inputDeltaEvt) := rfl
      rw [hrun, lastGoodParse]
      -- evaluate one `input_json_delta` step
      have hens : ensureAssistantMessage s.messages = s.messages :=
        ensure_of_last_assistant _ _ hlast
      have hfind : findLastStreamingTool
          (X ++ [Block.toolUse ⟨tid, tname, cur, true, none, none⟩]) =
          some ⟨tid, tname, cur, true, none, none⟩ :=
        findLastStreamingTool_concat X _ rfl
      have hcontent : ensuredContent s.messages =
          X ++ [Block.toolUse ⟨tid, tname, cur, true, none, none⟩] :=
        ensuredContent_of_last _ _ hlast
      cases hp : parse (acc ++ pj) with
      | some v =>
          simp only [Option.getD_some]
          have hmsg : (applyInputJsonDelta parse s pj).messages =
              updateLastAssistantBlocks s.messages (fun blocks =>
                blocks.map fun b =>
                  match b with
                  | .toolUse t =>
                      if t.id = tid then Block.toolUse { t with input := v }
                      else b
                  | .text _ => b) := by
            unfold applyInputJsonDelta
            rw [hens]
            simp only [hlast, hfind, hbuf, Option.getD_some, hp]
          have hbufs : (applyInputJsonDelta parse s pj).toolInputBuffers =
              jsSet s.toolInputBuffers tid (acc ++ pj) := by
            unfold applyInputJsonDelta
            rw [hens]
            simp only [hlast, hfind, hbuf, Option.getD_some, hp]
          have hlast' : (applyInputJsonDelta parse s pj).messages.getLast? =
              some ⟨Role.assistant,
                (X.map fun b =>
                  match b with
                  | .toolUse t =>
                      if t.id = tid then Block.toolUse { t with input := v }
                      else b
                  | .text _ => b) ++
                [Block.toolUse ⟨tid, tname, v, true, none, none⟩]⟩ := by
            rw [hmsg, getLast?_updateLast, hcontent]
            simp
          have hbuf' :
              jsGet (applyInputJsonDelta parse s pj).toolInputBuffers tid =
                some (acc ++ pj) := by
            rw [hbufs]
            exact jsGet_jsSet_self _ _ _
          exact ih (applyInputJsonDelta parse s pj) _ v (acc ++ pj)
            hlast' hbuf'
      | none =>
          simp only [Option.getD_none]
          have hmsg : (applyInputJsonDelta parse s pj).messages =
              s.messages := by
            unfold applyInputJsonDelta
            rw [hens]
            simp only [hlast, hfind, hbuf, Option.getD_some, hp]
          have hbufs : (applyInputJsonDelta parse s pj).toolInputBuffers =
              jsSet s.toolInputBuffers tid (acc ++ pj) := by
            unfold applyInputJsonDelta
            rw [hens]
            simp only [hlast, hfind, hbuf, Option.getD_some, hp]
          have hlast' : (applyInputJsonDelta parse s pj).messages.getLast? =
              some ⟨Role.assistant,
                X ++ [Block.toolUse ⟨tid, tname, cur, true, none, none⟩]⟩ := by
            rw [hmsg]
            exact hlast
          have hbuf' :
              jsGet (applyInputJsonDelta parse s pj).toolInputBuffers tid =
                some (acc ++ pj) := by
            rw [hbufs]
            exact jsGet_jsSet_self _ _ _
          exact ih (applyInputJsonDelta parse s pj) X cur (acc ++ pj)
            hlast' hbuf'

theorem blockStop_lastBlock (emptyObj : J) (parse : String → Option J)
    (s : ViewState J) (X : List (Block J)) (tid tname : String) (cur : J)
    (acc : String)
    (hlast : s.messages.getLast? = some ⟨Role.assistant,
      X ++ [Block.toolUse ⟨tid, tname, cur, true, none, none⟩]⟩)
    (hbuf : jsGet s.toolInputBuffers tid = some acc) :
    lastBlock (handleClaudeEvent emptyObj parse s blockStopEvt) =
      some (Block.toolUse
        ⟨tid, tname, (parse acc).getD cur, false, none, none⟩) := by
  have hcontent : ensuredContent s.messages =
      X ++ [Block.toolUse ⟨tid, tname, cur, true, none, none⟩] :=
    ensuredContent_of_last _ _ hlast
  show lastBlock (applyBlockStop parse s) = _
  unfold lastBlock applyBlockStop
  rw [getLast?_updateLast, hcontent]
  simp [hbuf]

/-- Claim C4: a tool block built from the token stream
(`content_block_start` with `input_json_delta` fragments and a final
`content_block_stop`) ends with `isStreaming = false` and an input that is
the parse of the full accumulated fragment when that parse succeeds, else
the last successfully parsed intermediate value, else the empty object —
never raw accumulated text (structurally impossible in the typed model,
and the exact value is pinned here). -/
theorem claim4_final_input (J : Type) (emptyObj : J)
    (parse : String → Option J) (s : ViewState J) (tid tname : String)
    (now : Nat) (pjs : List String) :
    lastBlock (runEvents emptyObj parse s
      (toolStartEvt (some tid) (some tname) now ::
        (pjs.map inputDeltaEvt ++ [blockStopEvt]))) =
      some (Block.toolUse ⟨tid, tname,
        (parse (String.join pjs)).getD
          (lastGoodParse parse "" emptyObj pjs).2,
        false, none, none⟩) := by
  have hsplit : runEvents emptyObj parse s
      (toolStartEvt (some tid) (some tname) now ::
        (pjs.map inputDeltaEvt ++ [blockStopEvt])) =
      handleClaudeEvent emptyObj parse
        (runEvents emptyObj parse
          (handleClaudeEvent emptyObj parse s
            (toolStartEvt (some tid) (some tname) now))
          (pjs.map inputDeltaEvt))
        blockStopEvt := by
    show runEvents _ _ _ _ = _
    unfold runEvents
    rw [List.foldl_cons, List.foldl_append]
    rfl
  rw [hsplit]
  obtain ⟨hlast1, hbuf1⟩ := toolStart_last emptyObj parse s tid tname now
  obtain ⟨Y, hlast2, hbuf2⟩ :=
    inputDeltas_run emptyObj parse pjs _ _ tid tname emptyObj "" hlast1 hbuf1
  have := blockStop_lastBlock emptyObj parse _ Y tid tname
    (lastGoodParse parse "" emptyObj pjs).2
    (lastGoodParse parse "" emptyObj pjs).1 hlast2 hbuf2
  rw [lastGoodParse_fst] at this
  simpa using this

theorem map_eq_self_of_forall {α : Type} (l : List α) (f : α → α)
    (h : ∀ a ∈ l, f a = a) : l.map f = l := by
  induction l with
  | nil => rfl
  | cons hd tl ih =>
      rw [List.map_cons, h hd (by simp), ih fun a ha => h a (by simp [ha])]

/-! ## Claim C1: tool_result application -/

/-- Claim C1 counterexample: a `tool_result` whose `tool_use_id` matches
no existing ToolBlock does not always leave the transcript unchanged —
when the transcript ends with a user turn, `updateLastAssistantBlocks`
appends an empty assistant turn. -/
theorem claim1_counterexample :
    (handleClaudeEvent (0 : Nat) (fun _ => none)
        ⟨[⟨Role.user, [Block.text "hi"]⟩], "", []⟩
        (ClaudeEvent.toolResult (some "t1") (some (.str "ok"))
          (some false))).messages ≠
      [⟨Role.user, [Block.text "hi"]⟩] := by decide

theorem toolResult_messages (s : ViewState J) (tid : String)
    (content : Option ResultContent) (isError : Option Bool)
    (htid : tid ≠ "") :
    (applyToolResult s (some tid) content isError).messages =
      updateLastAssistantBlocks s.messages (fun blocks =>
        blocks.map fun b =>
          match b with
          | .toolUse t =>
              if t.id = tid then
                if isError = some true then
                  Block.toolUse { t with
                    isStreaming := false
                    error := some (if extractResultText content = ""
                                   then "Tool error"
                                   else extractResultText content) }
                else
                  Block.toolUse { t with
                    isStreaming := false
                    result := some (extractResultText content) }
              else b
          | .text _ => b) := by
  unfold applyToolResult
  simp only [if_neg htid]

/-- Claim C1 (amended): for any `tool_result` event with a non-empty
`tool_use_id`, (a) if no tool block of the (ensured) last assistant turn
carries that id, all existing turns are unchanged except that an empty
assistant turn is appended when the transcript does not already end with
one (`ensureAssistantMessage`), and the event is not fatal; (b) every
tool block of the last assistant turn carrying that id which held neither
`result` nor `error` ends with exactly one of them set — `error` when
`is_error` is true, `result` otherwise — and `isStreaming = false`. -/
theorem claim1_amended (J : Type) (emptyObj : J)
    (parse : String → Option J) (s : ViewState J) (tid : String)
    (content : Option ResultContent) (isError : Option Bool)
    (htid : tid ≠ "") :
    ((∀ t : ToolBlock J,
        Block.toolUse t ∈ ensuredContent s.messages → t.id ≠ tid) →
      (handleClaudeEvent emptyObj parse s
          (ClaudeEvent.toolResult (some tid) content isError)).messages =
        ensureAssistantMessage s.messages) ∧
    ((∀ t : ToolBlock J,
        Block.toolUse t ∈ ensuredContent s.messages → t.id = tid →
          t.result = none ∧ t.error = none) →
      ∀ t : ToolBlock J,
        Block.toolUse t ∈ ensuredContent
          (handleClaudeEvent emptyObj parse s
            (ClaudeEvent.toolResult (some tid) content isError)).messages →
        t.id = tid →
          t.isStreaming = false ∧
          (if isError = some true then t.error.isSome = true ∧ t.result = none
           else t.result.isSome = true ∧ t.error = none)) := by
  have hmsg := toolResult_messages s tid content isError htid
  constructor
  · intro hnone
    show (applyToolResult s (some tid) content isError).messages = _
    rw [hmsg]
    apply updateLast_of_fix
    apply map_eq_self_of_forall
    intro b hb
    match b with
    | .text u => rfl
    | .toolUse t => simp [hnone t hb]
  · intro hfresh t' ht' hid
    show _ ∧ _
    have hc : ensuredContent
        (handleClaudeEvent emptyObj parse s
          (ClaudeEvent.toolResult (some tid) content isError)).messages =
        (ensuredContent s.messages).map fun b =>
          match b with
          | .toolUse t =>
              if t.id = tid then
                if isError = some true then
                  Block.toolUse { t with
                    isStreaming := false
                    error := some (if extractResultText content = ""
                                   then "Tool error"
                                   else extractResultText content) }
                else
                  Block.toolUse { t with
                    isStreaming := false
                    result := some (extractResultText content) }
              else b
          | .text _ => b := by
      show ensuredContent (applyToolResult s (some tid) content isError).messages = _
      rw [hmsg, ensuredContent_updateLast]
    rw [hc] at ht'
    obtain ⟨b, hb, hgb⟩ := List.mem_map.mp ht'
    match b with
    | .text u => simp at hgb
    | .toolUse t0 =>
        simp only [] at hgb
        by_cases h0 : t0.id = tid
        · obtain ⟨hr, he⟩ := hfresh t0 hb h0
          rw [if_pos h0] at hgb
          by_cases herr : isError = some true
          · rw [if_pos herr] at hgb
            cases hgb
            simp [herr, hr]
          · rw [if_neg herr] at hgb
            cases hgb
            simp [herr, he]
        · rw [if_neg h0] at hgb
          cases hgb
          exact absurd hid h0

/-- Witness for the amended C1 at a concrete input: a fresh streamed tool
block receives a successful `tool_result` and ends with only `result`
set and `isStreaming = false`. -/
theorem claim1_witness :
    (⟨"t1", "Read", 0, false, some "ok", none⟩ :
        ToolBlock Nat).isStreaming = false ∧
    (if (some false : Option Bool) = some true
     then (⟨"t1", "Read", 0, false, some "ok", none⟩ :
        ToolBlock Nat).error.isSome = true ∧
       (⟨"t1", "Read", 0, false, some "ok", none⟩ :
        ToolBlock Nat).result = none
     else (⟨"t1", "Read", 0, false, some "ok", none⟩ :
        ToolBlock Nat).result.isSome = true ∧
       (⟨"t1", "Read", 0, false, some "ok", none⟩ :
        ToolBlock Nat).error = none) :=
  (claim1_amended Nat 0 (fun _ => none)
      ⟨[⟨Role.assistant, [Block.toolUse ⟨"t1", "Read", 0, true, none, none⟩]⟩],
        "", []⟩
      "t1" (some (.str "ok")) (some false) (by decide)).2
    (by
      intro t ht hid
      have hc : ensuredContent
          ([⟨Role.assistant,
              [Block.toolUse ⟨"t1", "Read", 0, true, none, none⟩]⟩] :
            List (Message Nat)) =
          [Block.toolUse ⟨"t1", "Read", 0, true, none, none⟩] := by decide
      rw [hc] at ht
      simp at ht
      subst ht
      exact ⟨rfl, rfl⟩)
    ⟨"t1", "Read", 0, false, some "ok", none⟩ (by decide) rfl

/-! ## Claim C2: final result text -/

/-- Claim C2 counterexample: a final `result` event overwrites streamed
text instead of leaving it unchanged — with streamed text `"abc"` in
place, a result carrying `"xyz"` replaces the text block. -/
theorem claim2_counterexample :
    (handleClaudeEvent (0 : Nat) (fun _ => none)
        ⟨[⟨Role.assistant, [Block.text "abc"]⟩], "abc", []⟩
        (ClaudeEvent.result (some "xyz"))).messages =
      [⟨Role.assistant, [Block.text "xyz"]⟩] ∧
    ("xyz" : String) ≠ "abc" := by decide

/-- Claim C2 (amended): a final result message with non-blank text sets
the turn's trailing text block (and the stream buffer) to the result
text, replacing any earlier streamed text; a result whose text is blank
or absent leaves the state unchanged. -/
theorem claim2_amended (J : Type) (emptyObj : J)
    (parse : String → Option J) (s : ViewState J) (t : String) :
    (trimNonblank t = true →
      lastBlock (handleClaudeEvent emptyObj parse s
          (ClaudeEvent.result (some t))) = some (Block.text t) ∧
      (handleClaudeEvent emptyObj parse s
          (ClaudeEvent.result (some t))).streamTextBuffer = t) ∧
    (trimNonblank t = false →
      handleClaudeEvent emptyObj parse s (ClaudeEvent.result (some t)) = s) := by
  constructor
  · intro htr
    have happ : handleClaudeEvent emptyObj parse s
        (ClaudeEvent.result (some t)) =
        { s with
          streamTextBuffer := t
          messages := updateLastAssistantBlocks s.messages fun blocks =>
            setLastText blocks t } := by
      show applyResult s (some t) = _
      unfold applyResult
      simp [htr]
    rw [happ]
    refine ⟨?_, rfl⟩
    obtain ⟨X, hX⟩ := setLastText_shape (J := J) (ensuredContent s.messages) t
    unfold lastBlock
    simp only [getLast?_updateLast]
    rw [hX, List.getLast?_concat]
  · intro htr
    show applyResult s (some t) = s
    unfold applyResult
    simp [htr]

/-- Witness for the amended C2 at a concrete input. -/
theorem claim2_witness :
    lastBlock (handleClaudeEvent (0 : Nat) (fun _ => none)
        (⟨[⟨Role.assistant, [Block.text "abc"]⟩], "abc", []⟩ : ViewState Nat)
        (ClaudeEvent.result (some "xyz"))) = some (Block.text "xyz") ∧
    (handleClaudeEvent (0 : Nat) (fun _ => none)
        (⟨[⟨Role.assistant, [Block.text "abc"]⟩], "abc", []⟩ : ViewState Nat)
        (ClaudeEvent.result (some "xyz"))).streamTextBuffer = "xyz" :=
  (claim2_amended Nat 0 (fun _ => none)
      ⟨[⟨Role.assistant, [Block.text "abc"]⟩], "abc", []⟩ "xyz").1 (by decide)

/-! ## Claim C3: assistant snapshot merge -/

theorem blockToolIds_cons_text (u : String) (rest : List (Block J)) :
    blockToolIds (Block.text u :: rest) = blockToolIds rest := by
  simp [blockToolIds]

theorem blockToolIds_cons_tool (t : ToolBlock J) (rest : List (Block J)) :
    blockToolIds (Block.toolUse t :: rest) = t.id :: blockToolIds rest := by
  simp [blockToolIds]

theorem toolPairs_cons_text (u : String) (rest : List (Block J)) :
    toolPairs (Block.text u :: rest) = toolPairs rest := by
  simp [toolPairs]

theorem toolPairs_cons_tool (t : ToolBlock J) (rest : List (Block J)) :
    toolPairs (Block.toolUse t :: rest) = (t.id, t) :: toolPairs rest := by
  simp [toolPairs]

theorem mem_blockToolIds (blocks : List (Block J)) (id : String) :
    id ∈ blockToolIds blocks ↔
      ∃ t : ToolBlock J, Block.toolUse t ∈ blocks ∧ t.id = id := by
  unfold blockToolIds
  rw [List.mem_filterMap]
  constructor
  · rintro ⟨b, hb, hf⟩
    match b with
    | .text u => simp at hf
    | .toolUse t => exact ⟨t, hb, by simpa using hf⟩
  · rintro ⟨t, ht, hid⟩
    exact ⟨Block.toolUse t, ht, by simpa using hid⟩

theorem mem_toolPairs (blocks : List (Block J)) (t : ToolBlock J)
    (h : Block.toolUse t ∈ blocks) : (t.id, t) ∈ toolPairs blocks := by
  unfold toolPairs
  rw [List.mem_filterMap]
  exact ⟨Block.toolUse t, h, rfl⟩

theorem existingToolMap_go (blocks : List (Block J))
    (acc : List (String × ToolBlock J))
    (hdisj : ∀ e ∈ acc, e.1 ∉ blockToolIds blocks)
    (hnodup : (blockToolIds blocks).Nodup) :
    blocks.foldl
      (fun m b =>
        match b with
        | .toolUse t => jsSet m t.id t
        | .text _ => m) acc = acc ++ toolPairs blocks := by
  induction blocks generalizing acc with
  | nil => simp [toolPairs]
  | cons b rest ih =>
      match b with
      | .text u =>
          rw [toolPairs_cons_text, List.foldl_cons]
          rw [blockToolIds_cons_text] at hdisj hnodup
          exact ih acc hdisj hnodup
      | .toolUse t =>
          rw [toolPairs_cons_tool, List.foldl_cons]
          rw [blockToolIds_cons_tool] at hdisj hnodup
          have hset : jsSet acc t.id t = acc ++ [(t.id, t)] :=
            jsSet_append_of_not_mem acc t.id t fun e he heq =>
              hdisj e he (heq ▸ List.mem_cons_self t.id (blockToolIds rest))
          show rest.foldl _ (jsSet acc t.id t) = acc ++ ((t.id, t) :: toolPairs rest)
          rw [hset]
          have hnodup' := (List.nodup_cons.mp hnodup).2
          have hhead := (List.nodup_cons.mp hnodup).1
          have hdisj' : ∀ e ∈ acc ++ [(t.id, t)], e.1 ∉ blockToolIds rest := by
            intro e he
            rcases List.mem_append.mp he with hacc | hsingle
            · exact fun hmem => hdisj e hacc (List.mem_cons_of_mem _ hmem)
            · have : e = (t.id, t) := by simpa using hsingle
              rw [this]
              exact hhead
          rw [ih (acc ++ [(t.id, t)]) hdisj' hnodup']
          simp

theorem existingToolMap_eq (blocks : List (Block J))
    (hnodup : (blockToolIds blocks).Nodup) :
    existingToolMap blocks = toolPairs blocks := by
  unfold existingToolMap
  simpa using existingToolMap_go blocks [] (by simp) hnodup

theorem jsGet_toolPairs (blocks : List (Block J)) (t : ToolBlock J)
    (hnodup : (blockToolIds blocks).Nodup)
    (h : Block.toolUse t ∈ blocks) :
    jsGet (toolPairs blocks) t.id = some t := by
  induction blocks with
  | nil => simp at h
  | cons b rest ih =>
      match b with
      | .text u =>
          rw [toolPairs_cons_text]
          rw [blockToolIds_cons_text] at hnodup
          exact ih hnodup (by simpa using h)
      | .toolUse t0 =>
          rw [toolPairs_cons_tool]
          rw [blockToolIds_cons_tool] at hnodup
          rcases List.mem_cons.mp h with heq | hmem
          · injection heq with h1
            subst h1
            simp [jsGet]
          · have hhead := (List.nodup_cons.mp hnodup).1
            have hti : t.id ∈ blockToolIds rest :=
              (mem_blockToolIds rest t.id).mpr ⟨t, hmem, rfl⟩
            have hne : t0.id ≠ t.id := fun hEq => hhead (hEq ▸ hti)
            show jsGet ((t0.id, t0) :: toolPairs rest) t.id = some t
            simp only [jsGet, if_neg hne]
            exact ih (List.nodup_cons.mp hnodup).2 hmem

theorem snapMerge_def (oldC newBlocks : List (Block J)) :
    snapMerge oldC newBlocks =
      (((existingToolMap oldC).map Prod.snd).filter fun t =>
        ! (blockToolIds newBlocks).contains t.id).map Block.toolUse ++
      (newBlocks.map fun b =>
        match b with
        | .toolUse t =>
            match jsGet (existingToolMap oldC) t.id with
            | some existing =>
                Block.toolUse { t with
                  result := existing.result.or t.result
                  error := existing.error.or t.error }
            | none => b
        | .text _ => b) := rfl

theorem mem_snapMerge_of_newBlock (oldC newBlocks : List (Block J))
    (nb : ToolBlock J) (h : Block.toolUse nb ∈ newBlocks) :
    ∃ t : ToolBlock J, Block.toolUse t ∈ snapMerge oldC newBlocks ∧
      t.id = nb.id ∧ t.name = nb.name ∧ t.input = nb.input ∧
      t.isStreaming = nb.isStreaming ∧
      (∀ ex, jsGet (existingToolMap oldC) nb.id = some ex →
        t.result = ex.result.or nb.result ∧
        t.error = ex.error.or nb.error) := by
  rw [snapMerge_def]
  cases hlook : jsGet (existingToolMap oldC) nb.id with
  | none =>
      refine ⟨nb, ?_, rfl, rfl, rfl, rfl, ?_⟩
      · apply List.mem_append_right
        refine List.mem_map.mpr ⟨Block.toolUse nb, h, ?_⟩
        simp only [hlook]
      · intro ex hex
        simp at hex
  | some ex0 =>
      refine ⟨{ nb with
          result := ex0.result.or nb.result
          error := ex0.error.or nb.error }, ?_, rfl, rfl, rfl, rfl, ?_⟩
      · apply List.mem_append_right
        refine List.mem_map.mpr ⟨Block.toolUse nb, h, ?_⟩
        simp only [hlook]
      · intro ex hex
        injection hex with hEq
        subst hEq
        exact ⟨rfl, rfl⟩

theorem mem_snapMerge_orphan (oldC newBlocks : List (Block J))
    (ot : ToolBlock J) (hnodup : (blockToolIds oldC).Nodup)
    (hot : Block.toolUse ot ∈ oldC)
    (hnotin : ot.id ∉ blockToolIds newBlocks) :
    Block.toolUse ot ∈ snapMerge oldC newBlocks := by
  rw [snapMerge_def]
  apply List.mem_append_left
  refine List.mem_map.mpr ⟨ot, ?_, rfl⟩
  rw [List.mem_filter]
  refine ⟨?_, ?_⟩
  · refine List.mem_map.mpr ⟨(ot.id, ot), ?_, rfl⟩
    rw [existingToolMap_eq oldC hnodup]
    exact mem_toolPairs oldC ot hot
  · have hc : (blockToolIds newBlocks).contains ot.id = false := by
      rw [Bool.eq_false_iff]
      intro hc
      exact hnotin (List.elem_iff.mp hc)
    rw [hc]
    rfl

theorem applyAssistantSnapshot_eq (emptyObj : J) (s : ViewState J)
    (entries : List (SnapEntry J)) (oldC : List (Block J))
    (hlast : s.messages.getLast? = some ⟨Role.assistant, oldC⟩)
    (hne : snapNewBlocks emptyObj entries ≠ []) :
    applyAssistantSnapshot emptyObj s (some entries) =
      { s with
        streamTextBuffer := ""
        messages := s.messages.dropLast ++
          [⟨Role.assistant,
            snapMerge oldC (snapNewBlocks emptyObj entries)⟩] } := by
  have hni : (snapNewBlocks emptyObj entries).isEmpty = false := by
    rw [Bool.eq_false_iff]
    intro h
    exact hne (List.isEmpty_iff.mp h)
  have hens : ensureAssistantMessage s.messages = s.messages :=
    ensure_of_last_assistant _ _ hlast
  unfold applyAssistantSnapshot
  simp only [hni, Bool.false_eq_true, if_false, hens, hlast]

/-- Claim C3: an assistant snapshot with tool blocks, applied to a turn
whose tool ids are unique, (1) lands every snapshot tool block (same id,
name, input, `isStreaming = false`) in the resulting turn, (2) preserves
`result`/`error` already recorded against any tool id present in both
sets, and (3) keeps every existing tool block whose id is absent from the
snapshot. -/
theorem claim3_snapshot_merge (J : Type) (emptyObj : J)
    (parse : String → Option J) (s : ViewState J) (oldC : List (Block J))
    (entries : List (SnapEntry J))
    (hlast : s.messages.getLast? = some ⟨Role.assistant, oldC⟩)
    (hnodup : (blockToolIds oldC).Nodup)
    (htool : ∃ id name inp,
      SnapEntry.toolUse (some id) (some name) inp ∈ entries ∧
      id ≠ "" ∧ name ≠ "") :
    ∃ finalC,
      (handleClaudeEvent emptyObj parse s
          (ClaudeEvent.assistant (some entries))).messages.getLast? =
        some ⟨Role.assistant, finalC⟩ ∧
      (∀ id name inp,
        SnapEntry.toolUse (some id) (some name) inp ∈ entries →
        id ≠ "" → name ≠ "" →
        ∃ t : ToolBlock J, Block.toolUse t ∈ finalC ∧ t.id = id ∧
          t.name = name ∧ t.input = inp.getD emptyObj ∧
          t.isStreaming = false) ∧
      (∀ ot : ToolBlock J, Block.toolUse ot ∈ oldC →
        ot.id ∈ blockToolIds (snapNewBlocks emptyObj entries) →
        ∃ t : ToolBlock J, Block.toolUse t ∈ finalC ∧ t.id = ot.id ∧
          (∀ r, ot.result = some r → t.result = some r) ∧
          (∀ e, ot.error = some e → t.error = some e)) ∧
      (∀ ot : ToolBlock J, Block.toolUse ot ∈ oldC →
        ot.id ∉ blockToolIds (snapNewBlocks emptyObj entries) →
        Block.toolUse ot ∈ finalC) := by
  obtain ⟨id0, name0, inp0, hmem0, hid0, hname0⟩ := htool
  have hnb0 : Block.toolUse
      (⟨id0, name0, inp0.getD emptyObj, false, none, none⟩ : ToolBlock J) ∈
      snapNewBlocks emptyObj entries := by
    unfold snapNewBlocks
    rw [List.mem_filterMap]
    refine ⟨SnapEntry.toolUse (some id0) (some name0) inp0, hmem0, ?_⟩
    simp [hid0, hname0]
  have hne : snapNewBlocks emptyObj entries ≠ [] := by
    intro h
    rw [h] at hnb0
    simp at hnb0
  have happ := applyAssistantSnapshot_eq emptyObj s entries oldC hlast hne
  refine ⟨snapMerge oldC (snapNewBlocks emptyObj entries), ?_, ?_, ?_, ?_⟩
  · show (applyAssistantSnapshot emptyObj s
        (some entries)).messages.getLast? = _
    rw [happ]
    exact List.getLast?_concat _
  · intro id name inp hm hid hname
    have hnb : Block.toolUse
        (⟨id, name, inp.getD emptyObj, false, none, none⟩ : ToolBlock J) ∈
        snapNewBlocks emptyObj entries := by
      unfold snapNewBlocks
      rw [List.mem_filterMap]
      refine ⟨SnapEntry.toolUse (some id) (some name) inp, hm, ?_⟩
      simp [hid, hname]
    obtain ⟨t, htm, h1, h2, h3, h4, -⟩ :=
      mem_snapMerge_of_newBlock oldC _ _ hnb
    exact ⟨t, htm, h1, h2, h3, h4⟩
  · intro ot hot hin
    obtain ⟨nb, hnbm, hnbid⟩ := (mem_blockToolIds _ ot.id).mp hin
    obtain ⟨t, htm, htid, -, -, -, hsome⟩ :=
      mem_snapMerge_of_newBlock oldC _ nb hnbm
    have hlook : jsGet (existingToolMap oldC) nb.id = some ot := by
      rw [existingToolMap_eq oldC hnodup, hnbid]
      exact jsGet_toolPairs oldC ot hnodup hot
    obtain ⟨hr, he⟩ := hsome ot hlook
    refine ⟨t, htm, by rw [htid, hnbid], ?_, ?_⟩
    · intro r hrr
      rw [hr, hrr]
      rfl
    · intro e hee
      rw [he, hee]
      rfl
  · intro ot hot hnotin
    exact mem_snapMerge_orphan oldC _ ot hnodup hot hnotin

/-- Witness for C3 at a concrete input: a snapshot containing tool `t1`
merged into a turn holding tools `t1` (with a recorded result) and `t2`
(absent from the snapshot). -/
theorem claim3_witness :
    ∃ finalC,
      (handleClaudeEvent (0 : Nat) (fun _ => none)
          (⟨[⟨Role.assistant,
              [Block.toolUse ⟨"t1", "Edit", 5, false, some "done", none⟩,
               Block.toolUse ⟨"t2", "Read", 7, true, none, none⟩]⟩],
            "x", []⟩ : ViewState Nat)
          (ClaudeEvent.assistant (some [SnapEntry.text (some "hi"),
            SnapEntry.toolUse (some "t1") (some "Edit")
              (some 9)]))).messages.getLast? =
        some ⟨Role.assistant, finalC⟩ ∧
      (∀ id name inp,
        SnapEntry.toolUse (some id) (some name) inp ∈
          [SnapEntry.text (some "hi"),
           SnapEntry.toolUse (some "t1") (some "Edit") (some 9)] →
        id ≠ "" → name ≠ "" →
        ∃ t : ToolBlock Nat, Block.toolUse t ∈ finalC ∧ t.id = id ∧
          t.name = name ∧ t.input = inp.getD 0 ∧ t.isStreaming = false) ∧
      (∀ ot : ToolBlock Nat,
        Block.toolUse ot ∈
          [Block.toolUse ⟨"t1", "Edit", 5, false, some "done", none⟩,
           Block.toolUse ⟨"t2", "Read", 7, true, none, none⟩] →
        ot.id ∈ blockToolIds (snapNewBlocks 0
          [SnapEntry.text (some "hi"),
           SnapEntry.toolUse (some "t1") (some "Edit") (some 9)]) →
        ∃ t : ToolBlock Nat, Block.toolUse t ∈ finalC ∧ t.id = ot.id ∧
          (∀ r, ot.result = some r → t.result = some r) ∧
          (∀ e, ot.error = some e → t.error = some e)) ∧
      (∀ ot : ToolBlock Nat,
        Block.toolUse ot ∈
          [Block.toolUse ⟨"t1", "Edit", 5, false, some "done", none⟩,
           Block.toolUse ⟨"t2", "Read", 7, true, none, none⟩] →
        ot.id ∉ blockToolIds (snapNewBlocks 0
          [SnapEntry.text (some "hi"),
           SnapEntry.toolUse (some "t1") (some "Edit") (some 9)]) →
        Block.toolUse ot ∈ finalC) :=
  claim3_snapshot_merge Nat 0 (fun _ => none)
    ⟨[⟨Role.assistant,
        [Block.toolUse ⟨"t1", "Edit", 5, false, some "done", none⟩,
         Block.toolUse ⟨"t2", "Read", 7, true, none, none⟩]⟩], "x", []⟩
    [Block.toolUse ⟨"t1", "Edit", 5, false, some "done", none⟩,
     Block.toolUse ⟨"t2", "Read", 7, true, none, none⟩]
    [SnapEntry.text (some "hi"),
     SnapEntry.toolUse (some "t1") (some "Edit") (some 9)]
    (by decide) (by decide)
    ⟨"t1", "Edit", some 9, by decide, by decide, by decide⟩

/-! ## Claim C8: reject restores the first snapshot -/

theorem splitNL_ne_nil (cs : List Char) : splitNL cs ≠ [] := by
  match cs with
  | [] => simp [splitNL]
  | c :: cs =>
      unfold splitNL
      by_cases h : c = '\n'
      · simp [h]
      · cases hs : splitNL cs <;> simp [h, hs]

theorem joinNL_splitNL (cs : List Char) : joinNL (splitNL cs) = cs := by
  induction cs with
  | nil => rfl
  | cons c cs ih =>
      unfold splitNL
      by_cases h : c = '\n'
      · rw [if_pos h]
        obtain ⟨l, ls, hls⟩ : ∃ l ls, splitNL cs = l :: ls := by
          cases hs : splitNL cs with
          | nil => exact absurd hs (splitNL_ne_nil cs)
          | cons l ls => exact ⟨l, ls, rfl⟩
        rw [hls]
        rw [hls] at ih
        show joinNL ([] :: l :: ls) = c :: cs
        unfold joinNL
        rw [h]
        simpa using ih
      · rw [if_neg h]
        obtain ⟨l, ls, hls⟩ : ∃ l ls, splitNL cs = l :: ls := by
          cases hs : splitNL cs with
          | nil => exact absurd hs (splitNL_ne_nil cs)
          | cons l ls => exact ⟨l, ls, rfl⟩
        rw [hls]
        rw [hls] at ih
        cases ls with
        | nil =>
            show joinNL [c :: l] = c :: cs
            unfold joinNL
            simpa using ih
        | cons l2 ls2 =>
            show joinNL ((c :: l) :: l2 :: ls2) = c :: cs
            unfold joinNL
            unfold joinNL at ih
            simpa using ih

theorem jsGet_eq_none_of_not_mem {α : Type} (m : List (String × α))
    (k : String) (h : ∀ e ∈ m, e.1 ≠ k) : jsGet m k = none := by
  induction m with
  | nil => rfl
  | cons hd tl ih =>
      obtain ⟨k', v'⟩ := hd
      have hk : k' ≠ k := h (k', v') (by simp)
      simp only [jsGet, if_neg hk]
      exact ih fun e he => h e (by simp [he])

theorem jsGet_append_last {α : Type} (m : List (String × α)) (k : String)
    (v : α) (h : ∀ e ∈ m, e.1 ≠ k) : jsGet (m ++ [(k, v)]) k = some v := by
  induction m with
  | nil => simp [jsGet]
  | cons hd tl ih =>
      obtain ⟨k', v'⟩ := hd
      have hk : k' ≠ k := h (k', v') (by simp)
      simp only [List.cons_append, jsGet, if_neg hk]
      exact ih fun e he => h e (by simp [he])

theorem jsSet_append_last {α : Type} (m : List (String × α)) (k : String)
    (v w : α) (h : ∀ e ∈ m, e.1 ≠ k) :
    jsSet (m ++ [(k, v)]) k w = m ++ [(k, w)] := by
  induction m with
  | nil => simp [jsSet]
  | cons hd tl ih =>
      obtain ⟨k', v'⟩ := hd
      have hk : k' ≠ k := h (k', v') (by simp)
      simp only [List.cons_append, jsSet, if_neg hk, List.cons.injEq,
        true_and]
      exact ih fun e he => h e (by simp [he])

theorem jsDelete_append_last {α : Type} (m : List (String × α))
    (k : String) (v : α) (h : ∀ e ∈ m, e.1 ≠ k) :
    jsDelete (m ++ [(k, v)]) k = m := by
  induction m with
  | nil => simp [jsDelete]
  | cons hd tl ih =>
      obtain ⟨k', v'⟩ := hd
      have hk : k' ≠ k := h (k', v') (by simp)
      simp only [List.cons_append, jsDelete, if_neg hk, List.cons.injEq,
        true_and]
      exact ih fun e he => h e (by simp [he])

theorem snapshotFile_trackedFiles (st : TrackerState) (disk : Disk)
    (tid p : String) :
    (snapshotFile st disk tid p).trackedFiles = st.trackedFiles := rfl

theorem snapshotFile_pending (st : TrackerState) (disk : Disk)
    (tid p : String) :
    jsGet (snapshotFile st disk tid p).pendingEdits tid =
      some ⟨p, match disk p with
               | some content => splitNL content
               | none => []⟩ :=
  jsGet_jsSet_self _ _ _

theorem onToolResult_trackedFiles_first (st : TrackerState) (disk : Disk)
    (tid : String) (pe : PendingEdit)
    (hpe : jsGet st.pendingEdits tid = some pe) (content : List Char)
    (hdisk : disk pe.filePath = some content)
    (hnone : jsGet st.trackedFiles pe.filePath = none) :
    (onToolResult st disk tid).trackedFiles =
      jsSet st.trackedFiles pe.filePath
        ⟨(computeDiff pe.beforeLines (splitNL content)).1,
         (computeDiff pe.beforeLines (splitNL content)).2,
         joinNL pe.beforeLines⟩ := by
  unfold onToolResult
  simp only [hpe, hdisk, hnone]

theorem onToolResult_trackedFiles_again (st : TrackerState) (disk : Disk)
    (tid : String) (pe : PendingEdit)
    (hpe : jsGet st.pendingEdits tid = some pe) (content : List Char)
    (hdisk : disk pe.filePath = some content) (existing : TrackedFile)
    (hsome : jsGet st.trackedFiles pe.filePath = some existing) :
    (onToolResult st disk tid).trackedFiles =
      jsSet st.trackedFiles pe.filePath
        ⟨mergeRanges existing.added
           (computeDiff pe.beforeLines (splitNL content)).1,
         mergeRanges existing.modified
           (computeDiff pe.beforeLines (splitNL content)).2,
         existing.beforeContent⟩ := by
  unfold onToolResult
  simp only [hpe, hdisk, hsome]

theorem runCycles_inv (p : String) (c0 : List Char)
    (cycles : List (String × List Char)) (st : TrackerState) (disk : Disk)
    (T0 : List (String × TrackedFile)) (hkeys : ∀ e ∈ T0, e.1 ≠ p)
    (hinv : (st.trackedFiles = T0 ∧ disk p = some c0) ∨
      (∃ tr, st.trackedFiles = T0 ++ [(p, tr)] ∧ tr.beforeContent = c0)) :
    ((runCycles st disk p cycles).1.trackedFiles = T0 ∧
        (runCycles st disk p cycles).2 p = some c0) ∨
      (∃ tr, (runCycles st disk p cycles).1.trackedFiles = T0 ++ [(p, tr)] ∧
        tr.beforeContent = c0) := by
  induction cycles generalizing st disk with
  | nil => exact hinv
  | cons cyc rest ih =>
      obtain ⟨tid, c⟩ := cyc
      have hrun : runCycles st disk p ((tid, c) :: rest) =
          runCycles (onToolResult (snapshotFile st disk tid p)
            (writeDisk disk p c) tid) (writeDisk disk p c) p rest := rfl
      rw [hrun]
      apply ih
      right
      have hpe := snapshotFile_pending st disk tid p
      have hpe' : jsGet (snapshotFile st disk tid p).pendingEdits tid =
          some (⟨p, match disk p with
                    | some content => splitNL content
                    | none => []⟩ : PendingEdit) := hpe
      have hdisk1 : writeDisk disk p c p = some c := by
        unfold writeDisk
        simp
      rcases hinv with ⟨hT, hdp⟩ | ⟨tr, hT, hbc⟩
      · -- first completed cycle: the tracked entry is created with the
        -- snapshot of the original content
        have hnone : jsGet (snapshotFile st disk tid p).trackedFiles p =
            none := by
          rw [snapshotFile_trackedFiles, hT]
          exact jsGet_eq_none_of_not_mem T0 p hkeys
        have htf := onToolResult_trackedFiles_first
          (snapshotFile st disk tid p) (writeDisk disk p c) tid _ hpe' c
          hdisk1 hnone
        rw [snapshotFile_trackedFiles, hT] at htf
        rw [hdp] at htf
        refine ⟨⟨(computeDiff (splitNL c0) (splitNL c)).1,
          (computeDiff (splitNL c0) (splitNL c)).2, joinNL (splitNL c0)⟩,
          ?_, joinNL_splitNL c0⟩
        rw [htf]
        exact jsSet_append_of_not_mem T0 p _ hkeys
      · -- later cycles: the existing entry keeps its beforeContent
        have hsome : jsGet (snapshotFile st disk tid p).trackedFiles p =
            some tr := by
          rw [snapshotFile_trackedFiles, hT]
          exact jsGet_append_last T0 p tr hkeys
        have htf := onToolResult_trackedFiles_again
          (snapshotFile st disk tid p) (writeDisk disk p c) tid _ hpe' c
          hdisk1 tr hsome
        rw [snapshotFile_trackedFiles, hT] at htf
        exact ⟨_, htf.trans (jsSet_append_last T0 p tr _ hkeys), hbc⟩

theorem findSome?_none_of_keys (T : List (String × TrackedFile))
    (q : String) (h : ∀ e ∈ T, normalizePath e.1 ≠ q) :
    T.findSome? (fun e =>
      if normalizePath e.1 = q then some e.1 else none) = none := by
  induction T with
  | nil => rfl
  | cons hd tl ih =>
      rw [List.findSome?_cons]
      have hne : normalizePath hd.1 ≠ q := h hd (by simp)
      simp only [if_neg hne]
      exact ih fun e he => h e (by simp [he])

theorem findTrackedKey_none (st : TrackerState) (q : String)
    (h : ∀ e ∈ st.trackedFiles, normalizePath e.1 ≠ q) :
    findTrackedKey st q = none :=
  findSome?_none_of_keys st.trackedFiles q h

theorem findSome?_append_self (T : List (String × TrackedFile))
    (p : String) (tr : TrackedFile)
    (hkeys : ∀ e ∈ T, normalizePath e.1 ≠ normalizePath p) :
    (T ++ [(p, tr)]).findSome? (fun e =>
      if normalizePath e.1 = normalizePath p then some e.1 else none) =
      some p := by
  induction T with
  | nil => simp [List.findSome?_cons]
  | cons hd tl ih =>
      rw [List.cons_append, List.findSome?_cons]
      have hne : normalizePath hd.1 ≠ normalizePath p := hkeys hd (by simp)
      simp only [if_neg hne]
      exact ih fun e he => hkeys e (by simp [he])

/-- Claim C8: for every tracked file `p`, after any sequence of
snapshot/edit/result cycles for `p`, `rejectFile p` writes back exactly
the content present at the first `snapshotFile` call — the stored
before-content is never overwritten by a later cycle — and discards the
tracking entry. -/
theorem claim8_reject_restores_first_snapshot (st0 : TrackerState)
    (disk0 : Disk) (p : String) (c0 : List Char)
    (cycles : List (String × List Char)) (hdisk : disk0 p = some c0)
    (hkeys : ∀ e ∈ st0.trackedFiles,
      normalizePath e.1 ≠ normalizePath p) :
    (rejectFile (runCycles st0 disk0 p cycles).1
        (runCycles st0 disk0 p cycles).2 p false).2 p = some c0 ∧
    findTrackedKey
      (rejectFile (runCycles st0 disk0 p cycles).1
        (runCycles st0 disk0 p cycles).2 p false).1
      (normalizePath p) = none := by
  have hkeys' : ∀ e ∈ st0.trackedFiles, e.1 ≠ p := by
    intro e he heq
    exact hkeys e he (heq ▸ rfl)
  have hinv := runCycles_inv p c0 cycles st0 disk0 st0.trackedFiles hkeys'
    (Or.inl ⟨rfl, hdisk⟩)
  rcases hinv with ⟨hT, hdp⟩ | ⟨tr, hT, hbc⟩
  · -- no cycle ever completed: nothing tracked, reject is a no-op and
    -- the disk still holds the original content
    have hfind : findTrackedKey (runCycles st0 disk0 p cycles).1
        (normalizePath p) = none :=
      findTrackedKey_none _ _ (by rw [hT]; exact hkeys)
    unfold rejectFile
    rw [hfind]
    exact ⟨hdp, hfind⟩
  · -- p is tracked with beforeContent c0
    have hfind : findTrackedKey (runCycles st0 disk0 p cycles).1
        (normalizePath p) = some p := by
      unfold findTrackedKey
      rw [hT]
      exact findSome?_append_self st0.trackedFiles p tr hkeys
    have hget : jsGet (runCycles st0 disk0 p cycles).1.trackedFiles p =
        some tr := by
      rw [hT]
      exact jsGet_append_last _ _ _ hkeys'
    have hrej : rejectFile (runCycles st0 disk0 p cycles).1
        (runCycles st0 disk0 p cycles).2 p false =
        ({ (runCycles st0 disk0 p cycles).1 with
           trackedFiles :=
             jsDelete (runCycles st0 disk0 p cycles).1.trackedFiles p },
         writeDisk (runCycles st0 disk0 p cycles).2 p tr.beforeContent) := by
      unfold rejectFile
      simp only [hfind, hget]
      rfl
    rw [hrej]
    constructor
    · show writeDisk (runCycles st0 disk0 p cycles).2 p
        tr.beforeContent p = some c0
      unfold writeDisk
      simp [hbc]
    · apply findTrackedKey_none
      have hdel : jsDelete (runCycles st0 disk0 p cycles).1.trackedFiles p =
          st0.trackedFiles := by
        rw [hT]
        exact jsDelete_append_last _ _ _ hkeys'
      show ∀ e ∈ jsDelete (runCycles st0 disk0 p cycles).1.trackedFiles p,
        normalizePath e.1 ≠ normalizePath p
      rw [hdel]
      exact hkeys

/-- Witness for C8 at a concrete input: two sequential edit cycles on
one file, then reject. -/
theorem claim8_witness :
    (rejectFile
        (runCycles ⟨[], []⟩
          (fun q => if q = "/a.txt" then some ("x\ny".data) else none)
          "/a.txt" [("t1", "x\nz".data), ("t2", "w".data)]).1
        (runCycles ⟨[], []⟩
          (fun q => if q = "/a.txt" then some ("x\ny".data) else none)
          "/a.txt" [("t1", "x\nz".data), ("t2", "w".data)]).2
        "/a.txt" false).2 "/a.txt" = some ("x\ny".data) ∧
    findTrackedKey
      (rejectFile
        (runCycles ⟨[], []⟩
          (fun q => if q = "/a.txt" then some ("x\ny".data) else none)
          "/a.txt" [("t1", "x\nz".data), ("t2", "w".data)]).1
        (runCycles ⟨[], []⟩
          (fun q => if q = "/a.txt" then some ("x\ny".data) else none)
          "/a.txt" [("t1", "x\nz".data), ("t2", "w".data)]).2
        "/a.txt" false).1 (normalizePath "/a.txt") = none :=
  claim8_reject_restores_first_snapshot ⟨[], []⟩
    (fun q => if q = "/a.txt" then some ("x\ny".data) else none)
    "/a.txt" ("x\ny".data) [("t1", "x\nz".data), ("t2", "w".data)]
    (by decide) (by simp)

/-- Claim C6: a hook invocation whose `tool_name` is on the safe-tool
allow-list exits immediately with code 0 — the hook protocol's success
signal, read as allow — writing no decision object and never contacting
the gateway, whatever the gateway would have answered. -/
theorem claim6_safe_tool_bypass (data : HookInput) (gw : GatewayOutcome)
    (n : String) (hn : data.toolNameField = some n)
    (hsafe : n ∈ safeTools) :
    runHook (some data) gw = ⟨0, none, false⟩ := by
  have hc : safeTools.contains (data.toolNameField.getD "") = true := by
    rw [hn]
    exact List.elem_iff.mpr hsafe
  unfold runHook
  simp only [hc]
  rfl

/-- Witness for C6 at a concrete input. -/
theorem claim6_witness :
    runHook (some ⟨some "Read"⟩) GatewayOutcome.timeout =
      ⟨0, none, false⟩ :=
  claim6_safe_tool_bypass ⟨some "Read"⟩ GatewayOutcome.timeout "Read" rfl
    (by decide)

/-- Claim C5 counterexample: on gateway timeout for a non-safe tool the
hook exits with code 2 and writes no decision object — it does not write
`permissionDecision:"deny"` and does not exit 0 as the claim states. -/
theorem claim5_counterexample :
    (runHook (some ⟨some "Write"⟩) GatewayOutcome.timeout).exitCode = 2 ∧
    (runHook (some ⟨some "Write"⟩) GatewayOutcome.timeout).output =
      none ∧
    (runHook (some ⟨some "Write"⟩)
      GatewayOutcome.timeout).contactedGateway = true := by
  decide

/-- Claim C5 (amended): for a tool not on the allow-list, when the
gateway does not respond within the timeout window the hook destroys
the request and exits with code 2 without writing any decision object —
a non-zero exit the agent treats as a blocking failure, so the tool is
still not approved (fail-closed), but not the deny-object-plus-exit-0 of
the claim. -/
theorem claim5_timeout_exit2 (data : HookInput)
    (hblocked : safeTools.contains (data.toolNameField.getD "") = false) :
    runHook (some data) GatewayOutcome.timeout = ⟨2, none, true⟩ := by
  unfold runHook
  simp only [hblocked]
  rfl

/-- Witness for the amended C5 at a concrete input. -/
theorem claim5_witness :
    runHook (some ⟨some "Write"⟩) GatewayOutcome.timeout =
      ⟨2, none, true⟩ :=
  claim5_timeout_exit2 ⟨some "Write"⟩ (by decide)

/-- Claim C9: on teardown every still-pending approval is resolved with
`approved = false`, only denials are issued, and the pending-approvals
map is left empty, so no host-side resolver is left hanging. -/
theorem claim9_cleanup_denies_all (st : ApprovalState) :
    (cleanupApprovalSetup st).2.pendingApprovals = [] ∧
    (∀ e ∈ st.pendingApprovals, (e.2, false) ∈ (cleanupApprovalSetup st).1) ∧
    (∀ call ∈ (cleanupApprovalSetup st).1, call.2 = false) := by
  refine ⟨rfl, ?_, ?_⟩
  · intro e he
    exact List.mem_map.mpr ⟨e, he, rfl⟩
  · intro call hc
    obtain ⟨e, -, hEq⟩ := List.mem_map.mp hc
    rw [← hEq]

/-- Witness for C9 at a concrete input: two pending approvals both get
denied and the map is cleared. -/
theorem claim9_witness :
    (cleanupApprovalSetup ⟨[("approval-1", 1), ("approval-2", 2)],
      2⟩).2.pendingApprovals = [] ∧
    (1, false) ∈ (cleanupApprovalSetup ⟨[("approval-1", 1),
      ("approval-2", 2)], 2⟩).1 ∧
    (2, false) ∈ (cleanupApprovalSetup ⟨[("approval-1", 1),
      ("approval-2", 2)], 2⟩).1 :=
  ⟨(claim9_cleanup_denies_all ⟨[("approval-1", 1), ("approval-2", 2)],
      2⟩).1,
   (claim9_cleanup_denies_all ⟨[("approval-1", 1), ("approval-2", 2)],
      2⟩).2.1 ("approval-1", 1) (by decide),
   (claim9_cleanup_denies_all ⟨[("approval-1", 1), ("approval-2", 2)],
      2⟩).2.1 ("approval-2", 2) (by decide)⟩

/-- Claim C10: a POST to `/approve` whose body is not parseable as JSON
is answered 200 `{approved: false}` without invoking the injected host
decision callback, and the same denial response is returned when the
callback itself rejects. -/
theorem claim10_gateway_denies
    (parseReq : String → Option ToolApprovalRequest)
    (detail : ToolApprovalRequest → String)
    (cb : ToolApprovalRequest → String → CallbackOutcome)
    (body : String) :
    (parseReq body = none →
      approvalResponse parseReq detail cb body = ((200, false), false)) ∧
    (∀ request, parseReq body = some request →
      cb request (detail request) = .rejected →
      approvalResponse parseReq detail cb body = ((200, false), true)) := by
  constructor
  · intro h
    unfold approvalResponse
    rw [h]
  · intro request h hcb
    unfold approvalResponse
    simp only [h, hcb]

/-- Witness for C10 at concrete inputs: an unparseable body, and a
parseable body with a rejecting callback. -/
theorem claim10_witness :
    approvalResponse (fun _ => none) (fun _ => "")
      (fun _ _ => CallbackOutcome.rejected) "not json" =
      ((200, false), false) ∧
    approvalResponse (fun _ => some ⟨"Write", "x"⟩) (fun _ => "")
      (fun _ _ => CallbackOutcome.rejected) "body" =
      ((200, false), true) :=
  ⟨(claim10_gateway_denies (fun _ => none) (fun _ => "")
      (fun _ _ => CallbackOutcome.rejected) "not json").1 rfl,
   (claim10_gateway_denies (fun _ => some ⟨"Write", "x"⟩) (fun _ => "")
      (fun _ _ => CallbackOutcome.rejected) "body").2 ⟨"Write", "x"⟩ rfl
     rfl⟩

end Neusis

